import Mathlib

/-!
Shallow embedding of the memory subsystem of `pi-mono`
(`packages/coding-agent/src/core/memory/{manager,database,compiler,tools}.ts`).

Conventions of the embedding:
* SQLite rows become Lean structures; the two tables become two lists held in
  a `DBState`.  The opaque UUID primary keys of history rows are not modelled
  (no claim refers to them); block ids are `Nat`.
* ISO-8601 timestamps are modelled as `Nat` values supplied by the caller
  (`now` parameters), mirroring `new Date().toISOString()`.
* JavaScript exceptions become `Except String` results; a manager operation
  returns its (possibly updated) `DBState` together with the `Except` result,
  and every early `throw` in the source returns the state unchanged, exactly
  as the exception paths in the source run before any database write.
* The manager's in-process cache (`memoryCache`) mirrors the database and is
  kept coherent synchronously after each mutation (`cacheUpdate`); reads
  through the cache are therefore modelled as reads of the database state.
* `JSON.stringify(metadata)` is modelled as an opaque `Option String`.
* JavaScript string truthiness (`value ? a : b`) is modelled as a test
  against the empty string, and numeric truthiness (`charLimit || 4000`)
  maps `0` and "absent" to the default.
-/

namespace PiMemory

/-- A row of the `memory_blocks` table / the `MemoryBlock` interface. -/
structure MemoryBlock where
  id : Nat
  label : String
  value : String
  description : Option String
  charLimit : Nat
  readOnly : Bool
  hidden : Bool
  metadata : Option String
  createdAt : Nat
  updatedAt : Nat
  version : Nat
deriving Repr, DecidableEq

/-- The `CreateMemoryBlock` interface: all fields but `label` optional. -/
structure CreateMemoryBlock where
  label : String
  value : Option String := none
  description : Option String := none
  charLimit : Option Nat := none
  readOnly : Option Bool := none
  hidden : Option Bool := none
  metadata : Option String := none
deriving Repr, DecidableEq

/-- The `UpdateMemoryBlock` interface (also `Partial<CreateMemoryBlock>` as
used by `MemoryDatabase.updateBlock`): every field optional, `none` meaning
"not provided" (bound as SQL NULL, absorbed by `COALESCE`). -/
structure UpdateMemoryBlock where
  value : Option String := none
  description : Option String := none
  charLimit : Option Nat := none
  readOnly : Option Bool := none
  hidden : Option Bool := none
  metadata : Option String := none
deriving Repr, DecidableEq

/-- A row of the `memory_block_history` table (opaque UUID id omitted). -/
structure HistoryRow where
  blockId : Nat
  label : String
  value : String
  version : Nat
  createdAt : Nat
  createdBy : String
deriving Repr, DecidableEq

/-- The two tables of the SQLite database.  The manager pins `sessionId` to
`"global"` in its constructor, so the `session_id` column is constant and is
not modelled. -/
structure DBState where
  blocks : List MemoryBlock
  history : List HistoryRow
deriving Repr, DecidableEq

/-- `MemoryDatabase.getBlockByLabel`: `SELECT ... WHERE session_id = ? AND
label = ?` (the pair is UNIQUE, so the first match is the row). -/
def getBlockByLabel (st : DBState) (label : String) : Option MemoryBlock :=
  st.blocks.find? (fun b => b.label == label)

/-- JavaScript `x || d` on an optional number: `0` is falsy. -/
def numOrDefault (x : Option Nat) (d : Nat) : Nat :=
  match x with
  | some n => if n = 0 then d else n
  | none => d

/-- The row-level effect of the `UPDATE ... SET field = COALESCE(?, field)`
statement in `MemoryDatabase.updateBlock`: provided fields overwrite, absent
fields are kept; `updated_at` and `version` are always set. -/
def applyUpdates (upd : UpdateMemoryBlock) (now newVersion : Nat) (b : MemoryBlock) : MemoryBlock :=
  { b with
    value := upd.value.getD b.value
    description := upd.description.or b.description
    charLimit := upd.charLimit.getD b.charLimit
    readOnly := upd.readOnly.getD b.readOnly
    hidden := upd.hidden.getD b.hidden
    metadata := upd.metadata.or b.metadata
    updatedAt := now
    version := newVersion }

/-- `MemoryDatabase.createBlock`: INSERT the new row with `version = 1` and
write the initial history entry for version 1.  `freshId` stands for the
`randomUUID()` result. -/
def dbCreateBlock (st : DBState) (freshId : Nat) (block : CreateMemoryBlock) (now : Nat) :
    DBState × MemoryBlock :=
  let nb : MemoryBlock :=
    { id := freshId
      label := block.label
      value := block.value.getD ""
      description := some (block.description.getD "")
      charLimit := numOrDefault block.charLimit 4000
      readOnly := block.readOnly.getD false
      hidden := block.hidden.getD false
      metadata := block.metadata
      createdAt := now
      updatedAt := now
      version := 1 }
  let hrow : HistoryRow :=
    { blockId := freshId
      label := block.label
      value := block.value.getD ""
      version := 1
      createdAt := now
      createdBy := "agent" }
  (⟨st.blocks ++ [nb], st.history ++ [hrow]⟩, nb)

/-- `MemoryDatabase.updateBlock`: look the row up, compute
`newVersion = existing.version + 1`, run the COALESCE update, and append a
history row only when `updates.value` was provided; returns the re-read row. -/
def dbUpdateBlock (st : DBState) (label : String) (upd : UpdateMemoryBlock) (now : Nat) :
    DBState × Option MemoryBlock :=
  match getBlockByLabel st label with
  | none => (st, none)
  | some existing =>
    let newVersion := existing.version + 1
    let blocks' := st.blocks.map (fun b => if b.label == label then applyUpdates upd now newVersion b else b)
    let history' :=
      match upd.value with
      | some v => st.history ++ [⟨existing.id, label, v, newVersion, now, "agent"⟩]
      | none => st.history
    let st' : DBState := ⟨blocks', history'⟩
    (st', getBlockByLabel st' label)

/-- `MemoryDatabase.deleteBlock` plus the `ON DELETE CASCADE` on the history
table: remove matching block rows and their history; report whether a row
was removed (`result.changes > 0`). -/
def dbDeleteBlock (st : DBState) (label : String) : DBState × Bool :=
  let removed := st.blocks.filter (fun b => b.label == label)
  let blocks' := st.blocks.filter (fun b => !(b.label == label))
  let history' := st.history.filter (fun h => !(removed.any (fun b => b.id == h.blockId)))
  (⟨blocks', history'⟩, !removed.isEmpty)

/-- Error message thrown by the manager for mutations of read-only blocks. -/
def readOnlyModifyMsg (label : String) : String :=
  "Block \"" ++ label ++ "\" is read-only and cannot be modified"

/-- Error message thrown by `MemoryManager.deleteBlock` for read-only blocks. -/
def readOnlyDeleteMsg (label : String) : String :=
  "Block \"" ++ label ++ "\" is read-only and cannot be deleted"

/-- Error message thrown on a char-limit violation. -/
def charLimitExceededMsg (len lim : Nat) (label : String) : String :=
  "Value length (" ++ toString len ++ ") exceeds charLimit (" ++ toString lim ++
    ") for block \"" ++ label ++ "\""

/-- Error message thrown by `MemoryManager.replaceBlock` when `oldContent`
is absent from the current value. -/
def contentNotFoundMsg (label : String) : String :=
  "Old content not found in block \"" ++ label ++ "\""

/-- `MemoryManager.updateBlock`: `undefined` on an absent label; throws on a
read-only block; validates the provided value first against a provided
`charLimit` and otherwise against the existing limit (note that when both a
value and a larger limit are provided, the value is still also checked
against the existing limit, and no check at all runs when no value is
provided); then writes through `MemoryDatabase.updateBlock`. -/
def managerUpdateBlock (st : DBState) (label : String) (upd : UpdateMemoryBlock) (now : Nat) :
    DBState × Except String (Option MemoryBlock) :=
  match getBlockByLabel st label with
  | none => (st, Except.ok none)
  | some existing =>
    if existing.readOnly then (st, Except.error (readOnlyModifyMsg label))
    else
      match upd.value, upd.charLimit with
      | some v, some cl =>
        if cl < v.length then (st, Except.error (charLimitExceededMsg v.length cl label))
        else if existing.charLimit < v.length then
          (st, Except.error (charLimitExceededMsg v.length existing.charLimit label))
        else
          let r := dbUpdateBlock st label upd now
          (r.1, Except.ok r.2)
      | some v, none =>
        if existing.charLimit < v.length then
          (st, Except.error (charLimitExceededMsg v.length existing.charLimit label))
        else
          let r := dbUpdateBlock st label upd now
          (r.1, Except.ok r.2)
      | none, _ =>
        let r := dbUpdateBlock st label upd now
        (r.1, Except.ok r.2)

/-- `MemoryManager.deleteBlock`: `false` on an absent label, throws on a
read-only block, otherwise deletes through the store. -/
def managerDeleteBlock (st : DBState) (label : String) : DBState × Except String Bool :=
  match getBlockByLabel st label with
  | none => (st, Except.ok false)
  | some block =>
    if block.readOnly then (st, Except.error (readOnlyDeleteMsg label))
    else
      let r := dbDeleteBlock st label
      (r.1, Except.ok r.2)

/-- `MemoryManager.appendBlock`: `undefined` on an absent label, throws on a
read-only block, otherwise concatenates (newline separator only for a
non-empty existing value) and delegates to `updateBlock`. -/
def managerAppendBlock (st : DBState) (label content : String) (now : Nat) :
    DBState × Except String (Option MemoryBlock) :=
  match getBlockByLabel st label with
  | none => (st, Except.ok none)
  | some block =>
    if block.readOnly then (st, Except.error (readOnlyModifyMsg label))
    else
      let newValue := block.value ++ (if block.value ≠ "" then "\n" else "") ++ content
      managerUpdateBlock st label { value := some newValue } now

/-- Occurrence test scanning left to right: `sub` occurs in the list iff it
is a prefix of some suffix. -/
def listIncludes (sub : List Char) : List Char → Bool
  | [] => sub.isPrefixOf ([] : List Char)
  | c :: rest => sub.isPrefixOf (c :: rest) || listIncludes sub rest

/-- JavaScript `String.prototype.includes` on the underlying character
lists. -/
def jsIncludes (s sub : String) : Bool :=
  listIncludes sub.data s.data

/-- ECMAScript GetSubstitution for a plain-string pattern (no capture
groups): in the replacement text, `$$` yields a dollar sign, `$&` the
matched substring, a dollar followed by a backquote (code 96) the portion
preceding the match, a dollar followed by a single quote (code 39) the
portion following the match; every other character — including a dollar
followed by anything else, such as a digit (there are no captures) or `$<`
(no named captures) — is copied literally. -/
def getSubstitution (matched prior following : List Char) : List Char → List Char
  | [] => []
  | c :: rest =>
    if c = '$' then
      match rest with
      | [] => ['$']
      | d :: rest2 =>
        if d = '$' then '$' :: getSubstitution matched prior following rest2
        else if d = '&' then matched ++ getSubstitution matched prior following rest2
        else if d = Char.ofNat 96 then prior ++ getSubstitution matched prior following rest2
        else if d = Char.ofNat 39 then following ++ getSubstitution matched prior following rest2
        else c :: d :: getSubstitution matched prior following rest2
    else c :: getSubstitution matched prior following rest

/-- The left-to-right scan of JavaScript `String.prototype.replace` with a
plain-string pattern, carrying the already-scanned prefix (the match's
preceding portion, needed by GetSubstitution): at the first position where
`old` is a prefix of the remaining suffix, emit the substituted replacement
followed by the rest of the suffix; if `old` never occurs the input is
returned unchanged; an empty `old` matches at position 0. -/
def jsReplaceFirstAux (old repl : List Char) : List Char → List Char → List Char
  | prior, [] =>
    if old.isPrefixOf ([] : List Char) then
      getSubstitution old prior (List.drop old.length []) repl ++ List.drop old.length []
    else []
  | prior, c :: rest =>
    if old.isPrefixOf (c :: rest) then
      getSubstitution old prior (List.drop old.length (c :: rest)) repl
        ++ List.drop old.length (c :: rest)
    else c :: jsReplaceFirstAux old repl (prior ++ [c]) rest

/-- JavaScript `String.prototype.replace` with a plain-string pattern, on
character lists: replace the first occurrence of `old`, interpreting `repl`
under the GetSubstitution rules. -/
def jsReplaceFirst (old repl s : List Char) : List Char :=
  jsReplaceFirstAux old repl [] s

/-- String wrapper for `jsReplaceFirst`. -/
def jsReplace (s old repl : String) : String :=
  ⟨jsReplaceFirst old.data repl.data s.data⟩

/-- `MemoryManager.replaceBlock`: `undefined` on an absent label; throws on a
read-only block; a non-empty `oldContent` absent from the value throws; a
non-empty present `oldContent` has its first occurrence replaced; an empty
`oldContent` replaces the whole value by `newContent`; delegates to
`updateBlock`. -/
def managerReplaceBlock (st : DBState) (label oldContent newContent : String) (now : Nat) :
    DBState × Except String (Option MemoryBlock) :=
  match getBlockByLabel st label with
  | none => (st, Except.ok none)
  | some block =>
    if block.readOnly then (st, Except.error (readOnlyModifyMsg label))
    else if oldContent ≠ "" ∧ jsIncludes block.value oldContent = false then
      (st, Except.error (contentNotFoundMsg label))
    else
      let newValue := if oldContent ≠ "" then jsReplace block.value oldContent newContent else newContent
      managerUpdateBlock st label { value := some newValue } now

/-- The warning text emitted above line-numbered values (`compiler.ts`). -/
def CORE_MEMORY_LINE_NUMBER_WARNING : String :=
  "IMPORTANT: The <value> field below contains a line-numbered memory block. When editing this block, you must preserve all line numbers exactly as they appear. Do not remove, renumber, or modify the line number prefixes (e.g., '1→ ', '2→ ', '3→ '). Only modify the content after the arrow and space."

/-- The `llmConfig` option record. -/
structure LLMConfig where
  modelEndpointType : Option String
deriving Repr, DecidableEq

/-- The `MemoryCompileOptions` interface (only the field the compiler
inspects). -/
structure MemoryCompileOptions where
  llmConfig : Option LLMConfig
deriving Repr, DecidableEq

/-- `shouldUseLineNumbers`: line numbers only when options carry an
`llmConfig` whose `modelEndpointType` is `"anthropic"`. -/
def shouldUseLineNumbers : Option MemoryCompileOptions → Bool
  | none => false
  | some o =>
    match o.llmConfig with
    | none => false
    | some cfg => cfg.modelEndpointType == some "anthropic"

/-- JavaScript `text.split("\n")` on the character list: every string splits
into at least one line, the empty string into one empty line, and a trailing
newline yields a trailing empty line. -/
def jsSplitNl : List Char → List (List Char)
  | [] => [[]]
  | c :: rest =>
    if c = '\n' then [] :: jsSplitNl rest
    else
      match jsSplitNl rest with
      | l :: ls => (c :: l) :: ls
      | [] => [[c]]

/-- The lines of a string under JavaScript `split("\n")`. -/
def splitLines (text : String) : List String :=
  (jsSplitNl text.data).map (fun l => String.mk l)

/-- The loop body of `renderWithLineNumbers`, carrying the 0-based index of
the first remaining line. -/
def numberLines : Nat → List String → List String
  | _, [] => []
  | i, l :: ls => (toString (i + 1) ++ "→ " ++ l) :: numberLines (i + 1) ls

/-- `renderWithLineNumbers`: the falsy guard (`!text`) returns no lines for
the empty string; otherwise the value is split on newlines and each line is
prefixed with its 1-based number, an arrow and a space. -/
def renderWithLineNumbers (text : String) : List String :=
  if text = "" then [] else numberLines 0 (splitLines text)

/-- The lines pushed for the value section of a block: the numbered
rendering when enabled, otherwise the raw value as a single element. -/
def valueLines (useLineNumbers : Bool) (v : String) : List String :=
  if useLineNumbers then renderWithLineNumbers v else [v]

/-- The lines pushed for one visible block in `compileMemory` (everything
inside the loop body after the hidden check, except the separator). -/
def blockCoreLines (useLineNumbers : Bool) (block : MemoryBlock) : List String :=
  ["<" ++ block.label ++ ">", "<description>", block.description.getD "", "</description>", "<metadata>"]
    ++ (if block.readOnly then ["- read_only=true"] else [])
    ++ ["- chars_current=" ++ toString block.value.length,
        "- chars_limit=" ++ toString block.charLimit,
        "</metadata>"]
    ++ (if useLineNumbers then ["<warning>\n" ++ CORE_MEMORY_LINE_NUMBER_WARNING ++ "\n</warning>"] else [])
    ++ ["<value>"]
    ++ valueLines useLineNumbers block.value
    ++ ["</value>", "</" ++ block.label ++ ">"]

/-- One iteration of the `compileMemory` loop at index `idx` over a list of
`total` blocks: hidden blocks are skipped entirely (`continue`), and a blank
separator element follows every emitted block whose index is not the last
index of the full list (hidden blocks included in the count). -/
def compiledBlockLines (useLineNumbers : Bool) (total idx : Nat) (block : MemoryBlock) : List String :=
  if block.hidden then []
  else blockCoreLines useLineNumbers block ++ (if idx < total - 1 then [""] else [])

/-- `compileMemory`: empty input compiles to the empty string; otherwise the
header, the per-block emissions, and the closing marker are joined with
newlines. -/
def compileMemory (blocks : List MemoryBlock) (options : Option MemoryCompileOptions) : String :=
  if blocks.isEmpty then ""
  else
    let u := shouldUseLineNumbers options
    let body := List.flatten ((blocks.enum).map (fun p => compiledBlockLines u blocks.length p.1 p.2))
    String.intercalate "\n"
      (["<memory_blocks>",
        "The following memory blocks are currently engaged in your core memory unit:\n"]
        ++ body ++ ["</memory_blocks>"])

/-- The `CompiledMemoryBlock` interface (metadata record inlined). -/
structure CompiledMemoryBlock where
  label : String
  description : String
  charsCurrent : Nat
  charsLimit : Nat
  readOnly : Bool
  value : String
deriving Repr, DecidableEq

/-- The per-block record built by `getCompiledMemoryBlocks`. -/
def toCompiledBlock (block : MemoryBlock) : CompiledMemoryBlock :=
  { label := block.label
    description := block.description.getD ""
    charsCurrent := block.value.length
    charsLimit := block.charLimit
    readOnly := block.readOnly
    value := block.value }

/-- `getCompiledMemoryBlocks`: filter the hidden blocks out, keep order, and
map to structured records. -/
def getCompiledMemoryBlocks (blocks : List MemoryBlock) : List CompiledMemoryBlock :=
  (blocks.filter (fun b => !b.hidden)).map toCompiledBlock

/-- The `details` payload of a tool result: a success record or an error
tag. -/
inductive ToolDetails where
  | success (label : String) (newLength limit : Nat)
  | failure (error : String)
deriving Repr, DecidableEq

/-- A tool execution result: display text plus structured details. -/
structure ToolResult where
  text : String
  details : ToolDetails
deriving Repr, DecidableEq

/-- The not-found text of the append/replace tools. -/
def notFoundText (label : String) : String :=
  "Error: Memory block '" ++ label ++ "' not found. Use memory_list to see available blocks."

/-- The success text of the `memory_append` tool. -/
def appendSuccessText (label : String) (len lim : Nat) : String :=
  "Successfully appended to '" ++ label ++ "'. Block now contains " ++ toString len ++ "/" ++
    toString lim ++ " characters."

/-- The success text of the `memory_replace` tool. -/
def replaceSuccessText (label : String) (len lim : Nat) : String :=
  "Successfully updated '" ++ label ++ "'. Block now contains " ++ toString len ++ "/" ++
    toString lim ++ " characters."

/-- The executor of `memory_append` (`createMemoryAppendTool`): calls the
manager inside try/catch, turning an absent label into a "not found" result,
a success into a confirmation carrying the new length and limit, and any
thrown error into a result carrying the error message. -/
def memoryAppendExecute (st : DBState) (label content : String) (now : Nat) : DBState × ToolResult :=
  match managerAppendBlock st label content now with
  | (st', Except.ok none) => (st', ⟨notFoundText label, ToolDetails.failure "Block not found"⟩)
  | (st', Except.ok (some block)) =>
    (st', ⟨appendSuccessText label block.value.length block.charLimit,
           ToolDetails.success label block.value.length block.charLimit⟩)
  | (st', Except.error e) => (st', ⟨"Error appending to memory: " ++ e, ToolDetails.failure e⟩)

/-- The executor of `memory_replace` (`createMemoryReplaceTool`); the
optional `old_content` defaults to the empty string (`old_content || ""`). -/
def memoryReplaceExecute (st : DBState) (label : String) (oldContent : Option String)
    (newContent : String) (now : Nat) : DBState × ToolResult :=
  match managerReplaceBlock st label (oldContent.getD "") newContent now with
  | (st', Except.ok none) => (st', ⟨notFoundText label, ToolDetails.failure "Block not found"⟩)
  | (st', Except.ok (some block)) =>
    (st', ⟨replaceSuccessText label block.value.length block.charLimit,
           ToolDetails.success label block.value.length block.charLimit⟩)
  | (st', Except.error e) => (st', ⟨"Error updating memory: " ++ e, ToolDetails.failure e⟩)

/-- The block (if any) carried by a successful manager result. -/
def resultBlock (r : DBState × Except String (Option MemoryBlock)) : Option MemoryBlock :=
  match r.2 with
  | Except.ok (some b) => some b
  | _ => none

/-- The value of the block carried by a successful manager result. -/
def resultValue (r : DBState × Except String (Option MemoryBlock)) : Option String :=
  (resultBlock r).map (fun b => b.value)

/-- The version of the block carried by a successful manager result. -/
def resultVersion (r : DBState × Except String (Option MemoryBlock)) : Option Nat :=
  (resultBlock r).map (fun b => b.version)

/-! ## Helper lemmas -/

theorem applyUpdates_label (upd : UpdateMemoryBlock) (now nv : Nat) (b : MemoryBlock) :
    (applyUpdates upd now nv b).label = b.label := rfl

theorem find_map_label (l : List MemoryBlock) (label : String) (f : MemoryBlock → MemoryBlock)
    (hf : ∀ x, (f x).label = x.label) :
    (l.map (fun x => if x.label == label then f x else x)).find? (fun x => x.label == label)
      = (l.find? (fun x => x.label == label)).map f := by
  induction l with
  | nil => rfl
  | cons a t ih =>
    simp only [List.map_cons]
    cases h : (a.label == label) with
    | true =>
      rw [if_pos rfl]
      simp only [List.find?]
      rw [hf a, h]
      rfl
    | false =>
      rw [if_neg (by decide)]
      simp only [List.find?]
      rw [h]
      exact ih

theorem dbUpdateBlock_found (st : DBState) (label : String) (upd : UpdateMemoryBlock) (now : Nat)
    (b : MemoryBlock) (hfind : getBlockByLabel st label = some b) :
    dbUpdateBlock st label upd now =
      (⟨st.blocks.map (fun x => if x.label == label then applyUpdates upd now (b.version + 1) x else x),
        match upd.value with
        | some v => st.history ++ [⟨b.id, label, v, b.version + 1, now, "agent"⟩]
        | none => st.history⟩,
       some (applyUpdates upd now (b.version + 1) b)) := by
  have h2 : (st.blocks.map
      (fun x => if x.label == label then applyUpdates upd now (b.version + 1) x else x)).find?
      (fun x => x.label == label) = some (applyUpdates upd now (b.version + 1) b) := by
    rw [find_map_label st.blocks label (applyUpdates upd now (b.version + 1))
      (applyUpdates_label upd now (b.version + 1))]
    have hfind' : st.blocks.find? (fun x => x.label == label) = some b := hfind
    rw [hfind']
    rfl
  have hfind' : st.blocks.find? (fun x => x.label == label) = some b := hfind
  simp only [dbUpdateBlock, getBlockByLabel, hfind']
  rw [h2]

theorem managerUpdateBlock_ok (st : DBState) (label : String) (upd : UpdateMemoryBlock) (now : Nat)
    (b : MemoryBlock) (hfind : getBlockByLabel st label = some b) (hro : b.readOnly = false)
    (hval : ∀ v, upd.value = some v →
      v.length ≤ b.charLimit ∧ ∀ cl, upd.charLimit = some cl → v.length ≤ cl) :
    managerUpdateBlock st label upd now =
      (⟨st.blocks.map (fun x => if x.label == label then applyUpdates upd now (b.version + 1) x else x),
        match upd.value with
        | some v => st.history ++ [⟨b.id, label, v, b.version + 1, now, "agent"⟩]
        | none => st.history⟩,
       Except.ok (some (applyUpdates upd now (b.version + 1) b))) := by
  have hdb := dbUpdateBlock_found st label upd now b hfind
  simp only [managerUpdateBlock, hfind]
  rw [if_neg (show ¬(b.readOnly = true) by simp [hro])]
  rcases hv : upd.value with _ | v
  · rcases hcl : upd.charLimit with _ | cl
    all_goals simp only [hv, hcl] at hdb ⊢
    all_goals rw [hdb]
  · have hb := hval v hv
    rcases hcl : upd.charLimit with _ | cl
    · simp only [hv, hcl] at hdb ⊢
      rw [if_neg (by omega), hdb]
    · have hcl2 := hb.2 cl hcl
      simp only [hv, hcl] at hdb ⊢
      rw [if_neg (by omega), if_neg (by omega), hdb]

theorem managerUpdateBlock_value_err (st : DBState) (label : String) (now : Nat) (b : MemoryBlock)
    (v : String) (hfind : getBlockByLabel st label = some b) (hro : b.readOnly = false)
    (hlim : b.charLimit < v.length) :
    managerUpdateBlock st label { value := some v } now =
      (st, Except.error (charLimitExceededMsg v.length b.charLimit label)) := by
  simp only [managerUpdateBlock, hfind]
  rw [if_neg (show ¬(b.readOnly = true) by simp [hro])]
  rw [if_pos hlim]

/-! ## C10 -/

/-- C10: once a block's `readOnly` flag is true, `updateBlock` (with any
update payload, including one trying to reset `readOnly`), `appendBlock`,
`replaceBlock` and `deleteBlock` all fail with the read-only error and
return the state unchanged, so no manager operation can ever change any
field of the block — `readOnly` is a one-way latch. -/
theorem readOnly_one_way_latch (st : DBState) (label : String) (upd : UpdateMemoryBlock)
    (content oldContent newContent : String) (now : Nat) (b : MemoryBlock)
    (hfind : getBlockByLabel st label = some b) (hro : b.readOnly = true) :
    managerUpdateBlock st label upd now = (st, Except.error (readOnlyModifyMsg label))
    ∧ managerAppendBlock st label content now = (st, Except.error (readOnlyModifyMsg label))
    ∧ managerReplaceBlock st label oldContent newContent now = (st, Except.error (readOnlyModifyMsg label))
    ∧ managerDeleteBlock st label = (st, Except.error (readOnlyDeleteMsg label)) := by
  refine ⟨?_, ?_, ?_, ?_⟩
  · simp [managerUpdateBlock, hfind, hro]
  · simp [managerAppendBlock, hfind, hro]
  · simp [managerReplaceBlock, hfind, hro]
  · simp [managerDeleteBlock, hfind, hro]

/-- A concrete read-only block and a state holding it. -/
def roBlock : MemoryBlock :=
  { id := 1, label := "system", value := "locked", description := some "", charLimit := 100,
    readOnly := true, hidden := false, metadata := none, createdAt := 0, updatedAt := 0, version := 1 }

/-- A concrete state whose single block is read-only. -/
def roState : DBState := ⟨[roBlock], [⟨1, "system", "locked", 1, 0, "agent"⟩]⟩

theorem readOnly_one_way_latch_witness :
    managerUpdateBlock roState "system" { readOnly := some false } 5
        = (roState, Except.error (readOnlyModifyMsg "system"))
    ∧ managerAppendBlock roState "system" "x" 5 = (roState, Except.error (readOnlyModifyMsg "system"))
    ∧ managerReplaceBlock roState "system" "a" "b" 5 = (roState, Except.error (readOnlyModifyMsg "system"))
    ∧ managerDeleteBlock roState "system" = (roState, Except.error (readOnlyDeleteMsg "system")) :=
  readOnly_one_way_latch roState "system" { readOnly := some false } "x" "a" "b" 5 roBlock rfl rfl

/-! ## C6 -/

/-- C6: the `memory_append` and `memory_replace` executors never propagate a
manager failure: a thrown manager error is returned as a structured result
whose text carries the failure message and whose details carry the error
tag, and an absent label produces a result whose text names the label as not
found and directs the caller to `memory_list` first. -/
theorem memory_tools_error_results (st : DBState) (label content newContent : String)
    (oldContent : Option String) (now : Nat) :
    (∀ st' e, managerAppendBlock st label content now = (st', Except.error e) →
      memoryAppendExecute st label content now
        = (st', ⟨"Error appending to memory: " ++ e, ToolDetails.failure e⟩))
    ∧ (∀ st', managerAppendBlock st label content now = (st', Except.ok none) →
      memoryAppendExecute st label content now
        = (st', ⟨notFoundText label, ToolDetails.failure "Block not found"⟩))
    ∧ (∀ st' e, managerReplaceBlock st label (oldContent.getD "") newContent now = (st', Except.error e) →
      memoryReplaceExecute st label oldContent newContent now
        = (st', ⟨"Error updating memory: " ++ e, ToolDetails.failure e⟩))
    ∧ (∀ st', managerReplaceBlock st label (oldContent.getD "") newContent now = (st', Except.ok none) →
      memoryReplaceExecute st label oldContent newContent now
        = (st', ⟨notFoundText label, ToolDetails.failure "Block not found"⟩)) := by
  refine ⟨?_, ?_, ?_, ?_⟩
  · intro st' e h
    unfold memoryAppendExecute
    rw [h]
  · intro st' h
    unfold memoryAppendExecute
    rw [h]
  · intro st' e h
    unfold memoryReplaceExecute
    rw [h]
  · intro st' h
    unfold memoryReplaceExecute
    rw [h]

theorem memory_tools_error_results_witness :
    memoryAppendExecute roState "system" "x" 5
      = (roState, ⟨"Error appending to memory: " ++ readOnlyModifyMsg "system",
          ToolDetails.failure (readOnlyModifyMsg "system")⟩)
    ∧ memoryReplaceExecute ⟨[], []⟩ "gone" none "n" 5
      = (⟨[], []⟩, ⟨notFoundText "gone", ToolDetails.failure "Block not found"⟩) :=
  ⟨(memory_tools_error_results roState "system" "x" "n" none 5).1 roState
      (readOnlyModifyMsg "system") rfl,
   ((memory_tools_error_results ⟨[], []⟩ "gone" "x" "n" none 5).2.2.2) ⟨[], []⟩ rfl⟩

/-! ## Replace: first-occurrence characterization -/

theorem getSubstitution_no_dollar (matched prior following : List Char) :
    ∀ repl : List Char, '$' ∉ repl →
      getSubstitution matched prior following repl = repl := by
  intro repl
  induction repl with
  | nil => intro h; rfl
  | cons c rest ih =>
    intro h
    have hc : ¬(c = '$') := by
      intro hceq
      subst hceq
      exact h (List.mem_cons_self _ _)
    conv_lhs => rw [getSubstitution.eq_def]
    dsimp only
    rw [if_neg hc, ih (fun hm => h (List.mem_cons_of_mem c hm))]

theorem jsReplaceFirstAux_spec (old repl : List Char) :
    ∀ (s acc : List Char), listIncludes old s = true →
    ∃ p q, s = p ++ old ++ q
      ∧ jsReplaceFirstAux old repl acc s = p ++ getSubstitution old (acc ++ p) q repl ++ q
      ∧ ∀ i, i < p.length → old.isPrefixOf (s.drop i) = false := by
  intro s
  induction s with
  | nil =>
    intro acc h
    have hold : old = [] := by
      cases old with
      | nil => rfl
      | cons x xs => simp [listIncludes] at h
    subst hold
    refine ⟨[], [], rfl, ?_, by intro i hi; simp at hi⟩
    simp [jsReplaceFirstAux]
  | cons c rest ih =>
    intro acc h
    cases hpre : old.isPrefixOf (c :: rest) with
    | true =>
      obtain ⟨t, ht⟩ := (List.isPrefixOf_iff_prefix.mp hpre)
      refine ⟨[], t, by rw [← ht]; rfl, ?_, by intro i hi; simp at hi⟩
      simp only [jsReplaceFirstAux, hpre, if_true, List.nil_append, List.append_nil]
      rw [← ht, List.drop_left]
    | false =>
      have h2 : listIncludes old rest = true := by
        simpa [listIncludes, hpre] using h
      obtain ⟨p, q, hs, hr, hfirst⟩ := ih (acc ++ [c]) h2
      refine ⟨c :: p, q, by rw [hs]; rfl, ?_, ?_⟩
      · simp only [jsReplaceFirstAux, hpre, Bool.false_eq_true, if_false]
        rw [hr]
        simp
      · intro i hi
        cases i with
        | zero => simpa using hpre
        | succ j =>
          have hj : j < p.length := by simpa using hi
          simpa using hfirst j hj

theorem jsReplaceFirst_first_occurrence (old repl : List Char) :
    ∀ s : List Char, listIncludes old s = true →
    ∃ p q, s = p ++ old ++ q
      ∧ jsReplaceFirst old repl s = p ++ getSubstitution old p q repl ++ q
      ∧ ∀ i, i < p.length → old.isPrefixOf (s.drop i) = false := by
  intro s h
  obtain ⟨p, q, hs, hr, hfirst⟩ := jsReplaceFirstAux_spec old repl s [] h
  refine ⟨p, q, hs, ?_, hfirst⟩
  simpa [jsReplaceFirst] using hr

/-! ## C4 -/

/-- C4 (amended): on an existing, non-read-only block, `replaceBlock` fails
with the content-not-found error (state unchanged) when a non-empty
`oldContent` does not occur in the value; when it does occur and the result
fits the limit, exactly the first occurrence is replaced — the stored value
decomposes as `p ++ old ++ q` with no occurrence starting before `p.length`
and becomes `p ++ r ++ q` — but `r` is `newContent` as interpreted by
JavaScript's replacement-pattern substitution (`$$`, `$&`, a dollar before a
backquote or a quote), not necessarily `newContent` itself: only when
`newContent` contains no dollar sign is it inserted literally (see the
counterexample).  An empty `oldContent` bypasses `replace` entirely and
stores `newContent` verbatim (also the empty string) as a value-changing
update (version increments and a history row is written). -/
theorem replaceBlock_spec (st : DBState) (label oldContent newContent : String) (now : Nat)
    (b : MemoryBlock) (hfind : getBlockByLabel st label = some b) (hro : b.readOnly = false) :
    (oldContent ≠ "" → jsIncludes b.value oldContent = false →
      managerReplaceBlock st label oldContent newContent now
        = (st, Except.error (contentNotFoundMsg label)))
    ∧ (oldContent ≠ "" → jsIncludes b.value oldContent = true →
        (jsReplace b.value oldContent newContent).length ≤ b.charLimit →
      ∃ st' b', managerReplaceBlock st label oldContent newContent now = (st', Except.ok (some b'))
        ∧ b'.value = jsReplace b.value oldContent newContent
        ∧ b'.version = b.version + 1
        ∧ ∃ p q : List Char, b.value.data = p ++ oldContent.data ++ q
            ∧ b'.value.data = p ++ getSubstitution oldContent.data p q newContent.data ++ q
            ∧ ('$' ∉ newContent.data → b'.value.data = p ++ newContent.data ++ q)
            ∧ ∀ i, i < p.length → oldContent.data.isPrefixOf (b.value.data.drop i) = false)
    ∧ (oldContent = "" → newContent.length ≤ b.charLimit →
      ∃ st' b', managerReplaceBlock st label oldContent newContent now = (st', Except.ok (some b'))
        ∧ b'.value = newContent
        ∧ b'.version = b.version + 1
        ∧ st'.history = st.history ++ [⟨b.id, label, newContent, b.version + 1, now, "agent"⟩]) := by
  refine ⟨?_, ?_, ?_⟩
  · intro hne hninc
    simp only [managerReplaceBlock, hfind]
    rw [if_neg (show ¬(b.readOnly = true) by simp [hro])]
    rw [if_pos ⟨hne, hninc⟩]
  · intro hne hinc hlen
    have hok := managerUpdateBlock_ok st label
      { value := some (jsReplace b.value oldContent newContent) } now b hfind hro
      (by intro v hv
          refine ⟨?_, ?_⟩
          · cases hv; exact hlen
          · intro cl hcl; cases hcl)
    simp only [managerReplaceBlock, hfind]
    rw [if_neg (show ¬(b.readOnly = true) by simp [hro])]
    rw [if_neg (show ¬(oldContent ≠ "" ∧ jsIncludes b.value oldContent = false) by
      simp [hinc])]
    rw [if_pos hne]
    refine ⟨_, _, hok, rfl, rfl, ?_⟩
    obtain ⟨p, q, hs, hr, hfirst⟩ := jsReplaceFirst_first_occurrence oldContent.data
      newContent.data b.value.data hinc
    refine ⟨p, q, hs, hr, ?_, hfirst⟩
    intro hnd
    rw [getSubstitution_no_dollar oldContent.data p q newContent.data hnd] at hr
    exact hr
  · intro heq hlen
    subst heq
    have hok := managerUpdateBlock_ok st label { value := some newContent } now b hfind hro
      (by intro v hv
          refine ⟨?_, ?_⟩
          · cases hv; exact hlen
          · intro cl hcl; cases hcl)
    simp only [managerReplaceBlock, hfind]
    rw [if_neg (show ¬(b.readOnly = true) by simp [hro])]
    rw [if_neg (show ¬(("" : String) ≠ "" ∧ jsIncludes b.value "" = false) by simp)]
    rw [if_neg (show ¬(("" : String) ≠ "") by simp)]
    exact ⟨_, _, hok, rfl, rfl, rfl⟩

/-- A concrete block and state for the replace scenario. -/
def projBlock : MemoryBlock :=
  { id := 2, label := "project", value := "use old text", description := some "", charLimit := 100,
    readOnly := false, hidden := false, metadata := none, createdAt := 0, updatedAt := 0, version := 3 }

/-- A concrete state holding `projBlock`. -/
def projState : DBState := ⟨[projBlock], []⟩

/-- The replacement string `"$&"` is substituted by the matched text, so the
stored value stays `"use old text"` instead of becoming `"use $&"` — the
first occurrence is not replaced by `newContent` itself. -/
theorem dollar_replacement_counterexample :
    resultValue (managerReplaceBlock projState "project" "old text" "$&" 9)
      = some "use old text"
    ∧ resultValue (managerReplaceBlock projState "project" "old text" "$&" 9)
      ≠ some "use $&" :=
  ⟨rfl, by decide⟩

theorem replaceBlock_spec_witness :
    managerReplaceBlock projState "project" "missing" "x" 9
      = (projState, Except.error (contentNotFoundMsg "project"))
    ∧ (∃ st' b', managerReplaceBlock projState "project" "old text" "new text" 9
          = (st', Except.ok (some b'))
        ∧ b'.value = jsReplace projBlock.value "old text" "new text"
        ∧ b'.version = projBlock.version + 1
        ∧ ∃ p q : List Char, projBlock.value.data = p ++ ("old text" : String).data ++ q
            ∧ b'.value.data
                = p ++ getSubstitution ("old text" : String).data p q ("new text" : String).data ++ q
            ∧ ('$' ∉ ("new text" : String).data → b'.value.data = p ++ ("new text" : String).data ++ q)
            ∧ ∀ i, i < p.length →
                ("old text" : String).data.isPrefixOf (projBlock.value.data.drop i) = false)
    ∧ (∃ st' b', managerReplaceBlock projState "project" "" "wiped" 9 = (st', Except.ok (some b'))
        ∧ b'.value = "wiped"
        ∧ b'.version = projBlock.version + 1
        ∧ st'.history = projState.history
            ++ [⟨projBlock.id, "project", "wiped", projBlock.version + 1, 9, "agent"⟩]) :=
  ⟨(replaceBlock_spec projState "project" "missing" "x" 9 projBlock rfl rfl).1
      (by decide) rfl,
   (replaceBlock_spec projState "project" "old text" "new text" 9 projBlock rfl rfl).2.1
      (by decide) rfl (by decide),
   (replaceBlock_spec projState "project" "" "wiped" 9 projBlock rfl rfl).2.2
      rfl (by decide)⟩

/-! ## C5 -/

/-- The value appended by `MemoryManager.appendBlock`: existing value, a
newline separator only when the existing value is non-empty, then the new
content. -/
def appendedValue (existing content : String) : String :=
  existing ++ (if existing ≠ "" then "\n" else "") ++ content

/-- A concrete empty `tasks` block with the default 4000 limit. -/
def tasksBlock : MemoryBlock :=
  { id := 1, label := "tasks", value := "", description := some "", charLimit := 4000,
    readOnly := false, hidden := false, metadata := none, createdAt := 0, updatedAt := 0, version := 1 }

/-- A concrete state holding the empty `tasks` block. -/
def tasksState : DBState := ⟨[tasksBlock], [⟨1, "tasks", "", 1, 0, "agent"⟩]⟩

/-- C5: on an existing, non-read-only block, `appendBlock` sets the value to
the existing value, a newline separator only when the existing value is
non-empty, then the content; when the concatenation exceeds the block's
`charLimit` the call fails with the char-limit error and the state is
unchanged (no truncation).  Concretely, appending `"buy milk"` to the empty
`tasks` block yields `"buy milk"`, and then appending `"buy eggs"` yields
`"buy milk\nbuy eggs"`. -/
theorem appendBlock_spec (st : DBState) (label content : String) (now : Nat) (b : MemoryBlock)
    (hfind : getBlockByLabel st label = some b) (hro : b.readOnly = false) :
    ((appendedValue b.value content).length ≤ b.charLimit →
      ∃ st' b', managerAppendBlock st label content now = (st', Except.ok (some b'))
        ∧ b'.value = appendedValue b.value content
        ∧ b'.version = b.version + 1)
    ∧ (b.charLimit < (appendedValue b.value content).length →
      managerAppendBlock st label content now
        = (st, Except.error (charLimitExceededMsg (appendedValue b.value content).length b.charLimit label)))
    ∧ resultValue (managerAppendBlock tasksState "tasks" "buy milk" 1) = some "buy milk"
    ∧ resultValue (managerAppendBlock
        (managerAppendBlock tasksState "tasks" "buy milk" 1).1 "tasks" "buy eggs" 2)
        = some "buy milk\nbuy eggs" := by
  refine ⟨?_, ?_, rfl, rfl⟩
  · intro hlen
    have hok := managerUpdateBlock_ok st label { value := some (appendedValue b.value content) } now b
      hfind hro
      (by intro v hv
          refine ⟨?_, ?_⟩
          · cases hv; exact hlen
          · intro cl hcl; cases hcl)
    simp only [managerAppendBlock, hfind]
    rw [if_neg (show ¬(b.readOnly = true) by simp [hro])]
    exact ⟨_, _, hok, rfl, rfl⟩
  · intro hlen
    have herr := managerUpdateBlock_value_err st label now b (appendedValue b.value content)
      hfind hro hlen
    simp only [managerAppendBlock, hfind]
    rw [if_neg (show ¬(b.readOnly = true) by simp [hro])]
    exact herr

theorem appendBlock_spec_witness :
    ((appendedValue tasksBlock.value "buy milk").length ≤ tasksBlock.charLimit →
      ∃ st' b', managerAppendBlock tasksState "tasks" "buy milk" 1 = (st', Except.ok (some b'))
        ∧ b'.value = appendedValue tasksBlock.value "buy milk"
        ∧ b'.version = tasksBlock.version + 1)
    ∧ (tasksBlock.charLimit < (appendedValue tasksBlock.value "buy milk").length →
      managerAppendBlock tasksState "tasks" "buy milk" 1
        = (tasksState, Except.error
            (charLimitExceededMsg (appendedValue tasksBlock.value "buy milk").length
              tasksBlock.charLimit "tasks")))
    ∧ resultValue (managerAppendBlock tasksState "tasks" "buy milk" 1) = some "buy milk"
    ∧ resultValue (managerAppendBlock
        (managerAppendBlock tasksState "tasks" "buy milk" 1).1 "tasks" "buy eggs" 2)
        = some "buy milk\nbuy eggs" :=
  appendBlock_spec tasksState "tasks" "buy milk" 1 tasksBlock rfl rfl

/-! ## C3 -/

/-- C3 (amended): every update that provides a new value whose length
exceeds the effective limit (the explicitly updated limit when provided,
else the block's existing limit) fails with the char-limit error and leaves
the state unchanged, and `appendBlock`/`replaceBlock` inherit this through
their delegation to `updateBlock`; an update that provides no value is not
checked at all (see the counterexample). -/
theorem charLimit_rejection_atomic (st : DBState) (label : String) (upd : UpdateMemoryBlock)
    (content oldContent newContent : String) (now : Nat) (b : MemoryBlock)
    (hfind : getBlockByLabel st label = some b) (hro : b.readOnly = false) :
    (∀ v, upd.value = some v → upd.charLimit.getD b.charLimit < v.length →
      managerUpdateBlock st label upd now
        = (st, Except.error (charLimitExceededMsg v.length (upd.charLimit.getD b.charLimit) label)))
    ∧ (b.charLimit < (appendedValue b.value content).length →
      managerAppendBlock st label content now
        = (st, Except.error
            (charLimitExceededMsg (appendedValue b.value content).length b.charLimit label)))
    ∧ (oldContent = "" → b.charLimit < newContent.length →
      managerReplaceBlock st label oldContent newContent now
        = (st, Except.error (charLimitExceededMsg newContent.length b.charLimit label)))
    ∧ (oldContent ≠ "" → jsIncludes b.value oldContent = true →
        b.charLimit < (jsReplace b.value oldContent newContent).length →
      managerReplaceBlock st label oldContent newContent now
        = (st, Except.error
            (charLimitExceededMsg (jsReplace b.value oldContent newContent).length b.charLimit label))) := by
  refine ⟨?_, ?_, ?_, ?_⟩
  · intro v hv hlim
    simp only [managerUpdateBlock, hfind]
    rw [if_neg (show ¬(b.readOnly = true) by simp [hro])]
    rcases hcl : upd.charLimit with _ | cl
    · rw [hcl] at hlim
      simp only [Option.getD] at hlim
      simp only [hv, hcl]
      rw [if_pos hlim]
      rfl
    · rw [hcl] at hlim
      simp only [Option.getD] at hlim
      simp only [hv, hcl]
      rw [if_pos hlim]
      rfl
  · intro hlen
    have herr := managerUpdateBlock_value_err st label now b (appendedValue b.value content)
      hfind hro hlen
    simp only [managerAppendBlock, hfind]
    rw [if_neg (show ¬(b.readOnly = true) by simp [hro])]
    exact herr
  · intro heq hlen
    subst heq
    have herr := managerUpdateBlock_value_err st label now b newContent hfind hro hlen
    simp only [managerReplaceBlock, hfind]
    rw [if_neg (show ¬(b.readOnly = true) by simp [hro])]
    rw [if_neg (show ¬(("" : String) ≠ "" ∧ jsIncludes b.value "" = false) by simp)]
    rw [if_neg (show ¬(("" : String) ≠ "") by simp)]
    exact herr
  · intro hne hinc hlen
    have herr := managerUpdateBlock_value_err st label now b
      (jsReplace b.value oldContent newContent) hfind hro hlen
    simp only [managerReplaceBlock, hfind]
    rw [if_neg (show ¬(b.readOnly = true) by simp [hro])]
    rw [if_neg (show ¬(oldContent ≠ "" ∧ jsIncludes b.value oldContent = false) by simp [hinc])]
    rw [if_pos hne]
    exact herr

/-- A concrete block whose value has length 6 under a limit of 100. -/
def logBlock : MemoryBlock :=
  { id := 3, label := "log", value := "abcdef", description := some "", charLimit := 100,
    readOnly := false, hidden := false, metadata := none, createdAt := 0, updatedAt := 0, version := 1 }

/-- A concrete state holding `logBlock`. -/
def logState : DBState := ⟨[logBlock], []⟩

/-- `logBlock` after the charLimit-only shrink below. -/
def logBlockShrunk : MemoryBlock :=
  { id := 3, label := "log", value := "abcdef", description := some "", charLimit := 2,
    readOnly := false, hidden := false, metadata := none, createdAt := 0, updatedAt := 7, version := 2 }

theorem charLimit_shrink_counterexample :
    (managerUpdateBlock logState "log" { charLimit := some 2 } 7).2
      = Except.ok (some logBlockShrunk)
    ∧ logBlockShrunk.charLimit < logBlockShrunk.value.length
    ∧ (managerUpdateBlock logState "log" { charLimit := some 2 } 7).1.blocks = [logBlockShrunk] :=
  ⟨rfl, by decide, rfl⟩

/-- A concrete block with value `"aa"` at its limit of 2, so that every
over-limit rejection path can fire. -/
def tinyBlock : MemoryBlock :=
  { id := 6, label := "tiny", value := "aa", description := some "", charLimit := 2,
    readOnly := false, hidden := false, metadata := none, createdAt := 0, updatedAt := 0, version := 1 }

/-- A concrete state holding `tinyBlock`. -/
def tinyState : DBState := ⟨[tinyBlock], [⟨6, "tiny", "aa", 1, 0, "agent"⟩]⟩

theorem charLimit_rejection_atomic_witness :
    managerUpdateBlock tinyState "tiny" { value := some "toolong" } 9
      = (tinyState, Except.error (charLimitExceededMsg 7 2 "tiny"))
    ∧ managerAppendBlock tinyState "tiny" "bb" 9
      = (tinyState, Except.error (charLimitExceededMsg 5 2 "tiny"))
    ∧ managerReplaceBlock tinyState "tiny" "" "xyz" 9
      = (tinyState, Except.error (charLimitExceededMsg 3 2 "tiny"))
    ∧ managerReplaceBlock tinyState "tiny" "a" "zzz" 9
      = (tinyState, Except.error (charLimitExceededMsg 4 2 "tiny")) :=
  ⟨(charLimit_rejection_atomic tinyState "tiny" { value := some "toolong" } "bb" "a" "zzz" 9
      tinyBlock rfl rfl).1 "toolong" rfl (by decide),
   (charLimit_rejection_atomic tinyState "tiny" { value := some "toolong" } "bb" "a" "zzz" 9
      tinyBlock rfl rfl).2.1 (by decide),
   (charLimit_rejection_atomic tinyState "tiny" { value := some "toolong" } "bb" "" "xyz" 9
      tinyBlock rfl rfl).2.2.1 rfl (by decide),
   (charLimit_rejection_atomic tinyState "tiny" { value := some "toolong" } "bb" "a" "zzz" 9
      tinyBlock rfl rfl).2.2.2 (by decide) rfl (by decide)⟩

/-! ## C9 -/

/-- C9 (amended): an `updateBlock` that provides no value performs no
char-limit validation at all: it succeeds unconditionally on an existing,
non-read-only block, storing the provided `charLimit` (if any) while keeping
the value unchanged — even when the unchanged value is longer than the new
limit (see the counterexample, where the stored block ends up violating
`value.length ≤ charLimit`). -/
theorem charLimit_only_update_unvalidated (st : DBState) (label : String)
    (upd : UpdateMemoryBlock) (now : Nat) (b : MemoryBlock)
    (hfind : getBlockByLabel st label = some b) (hro : b.readOnly = false)
    (hv : upd.value = none) :
    managerUpdateBlock st label upd now
      = (⟨st.blocks.map (fun x => if x.label == label then applyUpdates upd now (b.version + 1) x else x),
          st.history⟩,
        Except.ok (some (applyUpdates upd now (b.version + 1) b)))
    ∧ (applyUpdates upd now (b.version + 1) b).value = b.value
    ∧ (applyUpdates upd now (b.version + 1) b).charLimit = upd.charLimit.getD b.charLimit := by
  have hok := managerUpdateBlock_ok st label upd now b hfind hro
    (by intro v hv'; rw [hv] at hv'; cases hv')
  rw [hv] at hok
  refine ⟨hok, ?_, rfl⟩
  simp [applyUpdates, hv]

/-- A concrete block with value `"hello"` (length 5) under limit 10. -/
def notesBlock : MemoryBlock :=
  { id := 4, label := "notes", value := "hello", description := some "", charLimit := 10,
    readOnly := false, hidden := false, metadata := none, createdAt := 0, updatedAt := 0, version := 1 }

/-- A concrete state holding `notesBlock`. -/
def notesState : DBState := ⟨[notesBlock], []⟩

/-- `notesBlock` after shrinking its limit to 3 (below the value length). -/
def notesBlockShrunk : MemoryBlock :=
  { id := 4, label := "notes", value := "hello", description := some "", charLimit := 3,
    readOnly := false, hidden := false, metadata := none, createdAt := 0, updatedAt := 7, version := 2 }

theorem charLimit_only_shrink_counterexample :
    (managerUpdateBlock notesState "notes" { charLimit := some 3 } 7).2
      = Except.ok (some notesBlockShrunk)
    ∧ notesBlockShrunk.value = notesBlock.value
    ∧ notesBlockShrunk.charLimit < notesBlockShrunk.value.length :=
  ⟨rfl, rfl, by decide⟩

theorem charLimit_only_update_unvalidated_witness :
    managerUpdateBlock notesState "notes" { charLimit := some 3 } 7
      = (⟨notesState.blocks.map (fun x =>
            if x.label == "notes" then
              applyUpdates { charLimit := some 3 } 7 (notesBlock.version + 1) x
            else x),
          notesState.history⟩,
        Except.ok (some (applyUpdates { charLimit := some 3 } 7 (notesBlock.version + 1) notesBlock)))
    ∧ (applyUpdates { charLimit := some 3 } 7 (notesBlock.version + 1) notesBlock).value
        = notesBlock.value
    ∧ (applyUpdates { charLimit := some 3 } 7 (notesBlock.version + 1) notesBlock).charLimit
        = ({ charLimit := some 3 } : UpdateMemoryBlock).charLimit.getD notesBlock.charLimit :=
  charLimit_only_update_unvalidated notesState "notes" { charLimit := some 3 } 7 notesBlock
    rfl rfl rfl

/-! ## C1 -/

/-- C1 (amended): every successful `updateBlock` on an existing block —
value-changing or not — increments `version` by exactly 1: the database
layer computes `newVersion = existing.version + 1` and stores it
unconditionally, so metadata-only updates bump the version too (see the
counterexample). -/
theorem updateBlock_version_increments (st : DBState) (label : String) (upd : UpdateMemoryBlock)
    (now : Nat) (st' : DBState) (b' : MemoryBlock)
    (h : managerUpdateBlock st label upd now = (st', Except.ok (some b'))) :
    ∃ b, getBlockByLabel st label = some b ∧ b'.version = b.version + 1 := by
  rcases hfind : getBlockByLabel st label with _ | ex
  · simp only [managerUpdateBlock, hfind] at h
    exact absurd h (by simp)
  · refine ⟨ex, rfl, ?_⟩
    by_cases hro : ex.readOnly = true
    · simp only [managerUpdateBlock, hfind] at h
      rw [if_pos hro] at h
      exact absurd h (by simp)
    · have hdb := dbUpdateBlock_found st label upd now ex hfind
      simp only [managerUpdateBlock, hfind] at h
      rw [if_neg hro] at h
      rcases hv : upd.value with _ | v <;> rcases hcl : upd.charLimit with _ | cl <;>
        simp only [hv, hcl] at h
      · rw [hdb] at h
        have hver := congrArg resultVersion h
        simp [resultVersion, resultBlock, applyUpdates] at hver
        omega
      · rw [hdb] at h
        have hver := congrArg resultVersion h
        simp [resultVersion, resultBlock, applyUpdates] at hver
        omega
      · split_ifs at h
        · exact absurd h (by simp)
        · rw [hdb] at h
          have hver := congrArg resultVersion h
          simp [resultVersion, resultBlock, applyUpdates] at hver
          omega
      · split_ifs at h
        · exact absurd h (by simp)
        · exact absurd h (by simp)
        · rw [hdb] at h
          have hver := congrArg resultVersion h
          simp [resultVersion, resultBlock, applyUpdates] at hver
          omega

/-- A concrete non-read-only block at version 1. -/
def personaBlock : MemoryBlock :=
  { id := 5, label := "persona", value := "v", description := some "", charLimit := 10,
    readOnly := false, hidden := false, metadata := none, createdAt := 0, updatedAt := 0, version := 1 }

/-- A concrete state holding `personaBlock` with its version-1 history row. -/
def personaState : DBState := ⟨[personaBlock], [⟨5, "persona", "v", 1, 0, "agent"⟩]⟩

/-- `personaBlock` after the description-only update below. -/
def personaBlockAfter : MemoryBlock :=
  { id := 5, label := "persona", value := "v", description := some "d", charLimit := 10,
    readOnly := false, hidden := false, metadata := none, createdAt := 0, updatedAt := 5, version := 2 }

theorem metadata_only_version_bump_counterexample :
    (getBlockByLabel personaState "persona").map (fun b => b.version) = some 1
    ∧ resultVersion (managerUpdateBlock personaState "persona" { description := some "d" } 5)
        = some 2
    ∧ resultValue (managerUpdateBlock personaState "persona" { description := some "d" } 5)
        = some "v" :=
  ⟨rfl, rfl, rfl⟩

theorem updateBlock_version_increments_witness :
    ∃ b, getBlockByLabel personaState "persona" = some b
      ∧ personaBlockAfter.version = b.version + 1 :=
  updateBlock_version_increments personaState "persona" { description := some "d" } 5
    ⟨[personaBlockAfter], [⟨5, "persona", "v", 1, 0, "agent"⟩]⟩ personaBlockAfter rfl

/-! ## C2 -/

/-- C2 (amended): the store writes a history row for version 1 at creation
and a history row with the new version for every value-providing update; an
update that provides no value advances the stored version without writing
any history row, so versions assigned by metadata-only updates have no
matching history row (see the counterexample — the all-versions-covered
invariant does not hold). -/
theorem history_rows_create_and_value_updates (st : DBState) (freshId : Nat)
    (cb : CreateMemoryBlock) (label : String) (upd : UpdateMemoryBlock) (now : Nat)
    (b : MemoryBlock) (hfind : getBlockByLabel st label = some b) :
    ((dbCreateBlock st freshId cb now).1.history
        = st.history ++ [⟨freshId, cb.label, cb.value.getD "", 1, now, "agent"⟩]
      ∧ (dbCreateBlock st freshId cb now).2.version = 1)
    ∧ (∀ v, upd.value = some v →
        (dbUpdateBlock st label upd now).1.history
          = st.history ++ [⟨b.id, label, v, b.version + 1, now, "agent"⟩])
    ∧ (upd.value = none → (dbUpdateBlock st label upd now).1.history = st.history)
    ∧ (∀ b', (dbUpdateBlock st label upd now).2 = some b' → b'.version = b.version + 1) := by
  have hdb := dbUpdateBlock_found st label upd now b hfind
  refine ⟨⟨rfl, rfl⟩, ?_, ?_, ?_⟩
  · intro v hv
    rw [hdb]
    simp [hv]
  · intro hv
    rw [hdb]
    simp [hv]
  · intro b' h2
    rw [hdb] at h2
    simp only at h2
    have h3 := Option.some.inj h2
    rw [← h3]
    rfl

/-- The state after creating block `"t"` (version 1, one history row). -/
def createdState : DBState := (dbCreateBlock ⟨[], []⟩ 7 { label := "t", value := some "v" } 0).1

/-- `createdState` after a description-only update of `"t"`. -/
def createdThenMetaState : DBState :=
  (managerUpdateBlock createdState "t" { description := some "d" } 1).1

theorem history_gap_counterexample :
    (getBlockByLabel createdThenMetaState "t").map (fun b => b.version) = some 2
    ∧ createdThenMetaState.history.map (fun r => r.version) = [1]
    ∧ createdThenMetaState.history.filter (fun r => r.version == 2) = [] :=
  ⟨rfl, rfl, rfl⟩

theorem history_rows_create_and_value_updates_witness :
    ((dbCreateBlock tasksState 9 { label := "n" } 3).1.history
        = tasksState.history ++ [⟨9, "n", ({ label := "n" } : CreateMemoryBlock).value.getD "", 1, 3, "agent"⟩]
      ∧ (dbCreateBlock tasksState 9 { label := "n" } 3).2.version = 1)
    ∧ (∀ v, ({ value := some "x" } : UpdateMemoryBlock).value = some v →
        (dbUpdateBlock tasksState "tasks" { value := some "x" } 3).1.history
          = tasksState.history ++ [⟨tasksBlock.id, "tasks", v, tasksBlock.version + 1, 3, "agent"⟩])
    ∧ (({ value := some "x" } : UpdateMemoryBlock).value = none →
        (dbUpdateBlock tasksState "tasks" { value := some "x" } 3).1.history = tasksState.history)
    ∧ (∀ b', (dbUpdateBlock tasksState "tasks" { value := some "x" } 3).2 = some b' →
        b'.version = tasksBlock.version + 1) :=
  history_rows_create_and_value_updates tasksState 9 { label := "n" } "tasks"
    { value := some "x" } 3 tasksBlock rfl

/-! ## C7 -/

/-- C7: a hidden block's loop iteration in `compileMemory` emits nothing at
all — no tag, no placeholder, not even a separator; the emitted block
content is exactly that of the hidden-filtered list in input order; and
`getCompiledMemoryBlocks` applies the identical hidden filter, returning the
non-hidden blocks as structured records in the same input order. -/
theorem compile_hidden_blocks (blocks : List MemoryBlock) (u : Bool) (bh : MemoryBlock)
    (hb : bh.hidden = true) :
    (∀ total idx, compiledBlockLines u total idx bh = [])
    ∧ List.flatten (blocks.map (fun x => if x.hidden then [] else blockCoreLines u x))
        = List.flatten ((blocks.filter (fun x => !x.hidden)).map (blockCoreLines u))
    ∧ getCompiledMemoryBlocks blocks = (blocks.filter (fun x => !x.hidden)).map toCompiledBlock := by
  refine ⟨?_, ?_, rfl⟩
  · intro total idx
    simp [compiledBlockLines, hb]
  · induction blocks with
    | nil => rfl
    | cons a t ih =>
      cases ha : a.hidden with
      | true => simp [ha, ih]
      | false => simp [ha, ih]

/-- A concrete visible block. -/
def visBlock : MemoryBlock :=
  { id := 10, label := "alpha", value := "av", description := some "", charLimit := 10,
    readOnly := false, hidden := false, metadata := none, createdAt := 0, updatedAt := 0, version := 1 }

/-- A concrete hidden block. -/
def hidBlock : MemoryBlock :=
  { id := 11, label := "beta", value := "bv", description := some "", charLimit := 10,
    readOnly := false, hidden := true, metadata := none, createdAt := 0, updatedAt := 0, version := 1 }

theorem compile_hidden_blocks_witness :
    (∀ total idx, compiledBlockLines true total idx hidBlock = [])
    ∧ List.flatten ([visBlock, hidBlock].map (fun x => if x.hidden then [] else blockCoreLines true x))
        = List.flatten (([visBlock, hidBlock].filter (fun x => !x.hidden)).map (blockCoreLines true))
    ∧ getCompiledMemoryBlocks [visBlock, hidBlock]
        = ([visBlock, hidBlock].filter (fun x => !x.hidden)).map toCompiledBlock :=
  compile_hidden_blocks [visBlock, hidBlock] true hidBlock rfl

/-! ## C8 -/

theorem numberLines_length : ∀ (l : List String) (k : Nat), (numberLines k l).length = l.length := by
  intro l
  induction l with
  | nil => intro k; rfl
  | cons a t ih =>
    intro k
    simp [numberLines, ih]

theorem numberLines_get? : ∀ (l : List String) (k i : Nat),
    (numberLines k l).get? i = (l.get? i).map (fun line => toString (k + i + 1) ++ "→ " ++ line) := by
  intro l
  induction l with
  | nil => intro k i; rfl
  | cons a t ih =>
    intro k i
    cases i with
    | zero => rfl
    | succ j =>
      show (numberLines (k + 1) t).get? j
        = ((a :: t).get? (j + 1)).map (fun line => toString (k + (j + 1) + 1) ++ "→ " ++ line)
      rw [List.get?_cons_succ, ih (k + 1) j]
      simp only [show k + 1 + j + 1 = k + (j + 1) + 1 from by omega]

/-- C8 (amended): for every non-empty value, line-numbered rendering emits
exactly one output line per line of the value (JavaScript `split("\n")`
semantics), the i-th output line being the 1-based number, the arrow glyph
and one space followed by that line (empty lines kept as empty content after
the prefix); with the option disabled the raw value is emitted byte-for-byte
as a single element.  The empty value is the exception: `split` yields one
empty line, but the renderer's falsy guard emits no line at all (see the
counterexample). -/
theorem renderWithLineNumbers_spec (s : String) (hs : s ≠ "") :
    (renderWithLineNumbers s).length = (splitLines s).length
    ∧ (∀ i, (renderWithLineNumbers s).get? i
        = ((splitLines s).get? i).map (fun line => toString (i + 1) ++ "→ " ++ line))
    ∧ (∀ v : String, valueLines false v = [v]) := by
  refine ⟨?_, ?_, fun v => rfl⟩
  · rw [renderWithLineNumbers, if_neg hs]
    exact numberLines_length (splitLines s) 0
  · intro i
    rw [renderWithLineNumbers, if_neg hs, numberLines_get?]
    simp only [Nat.zero_add]

theorem empty_value_render_counterexample :
    renderWithLineNumbers "" = []
    ∧ splitLines "" = [""]
    ∧ valueLines true "" = []
    ∧ valueLines false "" = [""]
    ∧ (renderWithLineNumbers "").length ≠ (splitLines "").length :=
  ⟨rfl, rfl, rfl, rfl, by decide⟩

theorem renderWithLineNumbers_spec_witness :
    ((renderWithLineNumbers "a\n\nc").length = (splitLines "a\n\nc").length
      ∧ (∀ i, (renderWithLineNumbers "a\n\nc").get? i
          = ((splitLines "a\n\nc").get? i).map (fun line => toString (i + 1) ++ "→ " ++ line))
      ∧ (∀ v : String, valueLines false v = [v]))
    ∧ renderWithLineNumbers "a\n\nc" = ["1→ a", "2→ ", "3→ c"] :=
  ⟨renderWithLineNumbers_spec "a\n\nc" (by decide), rfl⟩

end PiMemory
